import Mathlib

/-!
Verification development for the configuration reconciliation engine of the
`openstack-ansible-wizard` repository.

The Python sources are shallowly embedded as executable Lean definitions:

* `ServiceConfig` models `openstack_ansible_wizard/common/config.py`
  (`load_service_config`): legacy-file migration and the shallow merge of the
  per-service YAML directory.
* `AddressSpace` models the parts of Python's `ipaddress` module used by the
  code (IPv4 dotted-quad literals with an optional `/p` prefix length;
  `strict=False` host-bit masking; containment).  The code treats IPv4 and
  IPv6 uniformly through `ipaddress`; the model covers the IPv4 grammar.
* `Networks` models `openstack_ansible_installer/screens/networks.py`:
  `NetworkScreen.load_configs`, `AddEditCidrNetworkScreen.on_save`,
  `NetworkScreen.action_save_configs`, `NetworkScreen.has_unsaved_changes`,
  and the mutation operations on the in-memory model.
* `AnchorSave` models the object-identity part of `action_save_configs`
  (lines 596-607) over an explicit micro-heap, together with the anchor/alias
  emission behavior of the `ruamel` round-trip serializer.

YAML mappings are embedded as association lists with unique keys (YAML and
Python `dict` both enforce key uniqueness); Python `dict` equality is
order-insensitive, which the comparison functions below reproduce by
lookup-based equality.
-/

namespace Py

/-- Python string comparison `a <= b` restricted to one character position:
code-point order.  Characters compare by code point in both Python and
Lean's `Char` order. -/
def leChars : List Char → List Char → Bool
  | [], _ => true
  | _ :: _, [] => false
  | a :: as, b :: bs => if a = b then leChars as bs else decide (a < b)

/-- Python string comparison `a <= b`: lexicographic by code point. -/
def leB (a b : String) : Bool := leChars a.toList b.toList

/-- Helper for `str.split` on a single-character separator. -/
def splitChars (c : Char) : List Char → List (List Char)
  | [] => [[]]
  | a :: as =>
    let r := splitChars c as
    if a = c then [] :: r
    else
      match r with
      | [] => [[a]]
      | h :: t => (a :: h) :: t

/-- Python `s.split(sep)` for a single-character separator `sep` (the code
only ever splits on `","`, `"."` and `"/"`). -/
def pySplit (s : String) (c : Char) : List String :=
  (splitChars c s.toList).map List.asString

/-- The ASCII whitespace characters `str.strip()` removes. -/
def isSpace (c : Char) : Bool :=
  c = ' ' || c = '\t' || c = '\n' || c = '\r' || c = '\x0b' || c = '\x0c'

/-- Python `str.strip()`. -/
def strip (s : String) : String :=
  (((s.toList.dropWhile isSpace).reverse.dropWhile isSpace).reverse).asString

/-- Python `sorted` on a list of strings: the ordered permutation under
code-point order.  CPython's sort is stable, but strings comparing equal
are identical, so any sorted permutation is that one. -/
def pySorted (l : List String) : List String :=
  List.insertionSort (fun a b => leB a b) l

end Py

namespace ServiceConfig

/-- A YAML mapping as loaded by `yaml.load`: top-level keys paired with
opaque values (the code only ever shallow-merges whole top-level entries, so
values need no further structure). -/
abbrev Doc := List (String × String)

/-- Python `dict` item assignment `m[k] = v`: replace the value of an
existing key in place, otherwise append the new key at the end. -/
def dictInsert (m : Doc) (k v : String) : Doc :=
  if (m.lookup k).isSome then
    m.map (fun p => if p.1 = k then (k, v) else p)
  else m ++ [(k, v)]

/-- Python `dict.update`: item-assign every pair of `n` into `m`, in order.
This is the shallow merge `merged_config.update(data)` of
`load_service_config`. -/
def dictUpdate (m n : Doc) : Doc :=
  n.foldl (fun acc p => dictInsert acc p.1 p.2) m

/-- The part of the filesystem `load_service_config` touches: the files
directly inside `group_vars/` (the legacy-file candidates) and the files
inside the per-service directory `group_vars/<service>/`.  File names are
paired with the mapping `yaml.load` would produce for them. -/
structure FS where
  files : List (String × Doc)
  serviceFiles : List (String × Doc)
deriving DecidableEq, Repr

/-- File-existence test (`legacy_file.exists()`). -/
def fsExists (fs : List (String × Doc)) (name : String) : Bool :=
  (fs.lookup name).isSome

/-- Write `d` at `name`, overwriting an existing file of that name: this is
what `shutil.move`'s destination side does when the target already exists. -/
def fsWrite (fs : List (String × Doc)) (name : String) (d : Doc) :
    List (String × Doc) :=
  if (fs.lookup name).isSome then
    fs.map (fun p => if p.1 = name then (name, d) else p)
  else fs ++ [(name, d)]

/-- Remove a file (`shutil.move`'s source side). -/
def fsRemove (fs : List (String × Doc)) (name : String) : List (String × Doc) :=
  fs.filter (fun p => p.1 ≠ name)

/-- Whether a file name matches the glob pattern `*.y*ml` used by the loading
loop (`service_dir_path.glob("*.y*ml")`): the name ends in `ml`, contains
`.y` somewhere before that suffix, and — per `glob` semantics for a pattern
not starting with a dot — is not a hidden file. -/
def globYml (name : String) : Bool :=
  let cs := name.toList
  decide (cs.take 1 ≠ ['.']) &&
  decide (cs.drop (cs.length - 2) = ['m', 'l']) &&
  ((List.range (cs.length)).any fun i =>
    decide ((cs.drop i).take 2 = ['.', 'y']) && decide (i + 2 ≤ cs.length - 2))

/-- Python `sorted` on a list of file names: lexicographic by code points. -/
def pySortedStr (l : List String) : List String :=
  Py.pySorted l

/-- One step of the legacy-migration loop of `load_service_config`
(lines 47-55): if the legacy file exists, fix `new_name` if still unset and
move the file into the service directory under `new_name`. -/
def migrateStep (st : FS × Option String) (legacyName : String) :
    FS × Option String :=
  let (fs, newName) := st
  if fsExists fs.files legacyName then
    let n := match newName with
      | none => "migrated_" ++ legacyName
      | some n => n
    (⟨fsRemove fs.files legacyName, fsWrite fs.serviceFiles n ((fs.files.lookup legacyName).getD [])⟩,
     some n)
  else (fs, newName)

/-- The legacy single-file candidates for a service (lines 34-45), together
with the initial value of `new_name`. -/
def legacyFiles (service : String) : List String × Option String :=
  if service = "all" then (["all.yml", "all.yaml"], some "vars.yml")
  else ([service ++ ".yml", service ++ ".yaml",
         service ++ "_all.yml", service ++ "_all.yaml"], none)

/-- Embedding of `load_service_config` (config.py lines 20-73), returning the
filesystem after migration together with the merged mapping.

Note on fidelity: lines 61-63 of the source build a `config_files` list and
sort it so that `wizzard.yml` comes last, but the loading loop on line 64
iterates `sorted(service_dir_path.glob("*.y*ml"))` instead, so that sorted
list is dead code; the embedding mirrors the loop that actually runs.  The
I/O error branches return early with an empty mapping; the pure filesystem
model has no I/O failures, so those branches are unreachable here. -/
def load_service_config (fs : FS) (service : String) : FS × Doc :=
  let (legacy, newName0) := legacyFiles service
  let (fs1, _) := legacy.foldl migrateStep (fs, newName0)
  let names := pySortedStr ((fs1.serviceFiles.map Prod.fst).filter globYml)
  let merged := names.foldl
    (fun acc n => dictUpdate acc ((fs1.serviceFiles.lookup n).getD [])) []
  (fs1, merged)

end ServiceConfig

namespace AddressSpace

/-- Parse one dotted-quad octet the way Python's `ipaddress` module does:
only ASCII digits, at most three of them, no leading zero (unless the octet
is exactly `0`), value at most 255. -/
def parseOctet (s : String) : Option Nat :=
  let cs := s.toList
  if cs ≠ [] ∧ cs.all Char.isDigit ∧ cs.length ≤ 3 ∧ (cs.length = 1 ∨ cs.take 1 ≠ ['0']) then
    let v := cs.foldl (fun a c => a * 10 + (c.toNat - '0'.toNat)) 0
    if v ≤ 255 then some v else none
  else none

/-- Embedding of `ipaddress.ip_address` on the IPv4 grammar: four octets
separated by dots, yielding the address as a natural number below `2 ^ 32`.
The code treats IPv4 and IPv6 uniformly; the model covers IPv4 literals. -/
def ip_address (s : String) : Option Nat :=
  match Py.pySplit s '.' with
  | [a, b, c, d] =>
    match parseOctet a, parseOctet b, parseOctet c, parseOctet d with
    | some a, some b, some c, some d => some (((a * 256 + b) * 256 + c) * 256 + d)
    | _, _, _, _ => none
  | _ => none

/-- Parse the prefix-length part after `/`: a nonempty digit string whose
value is at most 32 (Python parses it with `int`, so leading zeros pass). -/
def parsePrefixLen (s : String) : Option Nat :=
  let cs := s.toList
  if cs ≠ [] ∧ cs.all Char.isDigit then
    let v := cs.foldl (fun a c => a * 10 + (c.toNat - '0'.toNat)) 0
    if v ≤ 32 then some v else none
  else none

/-- Clear the host bits of `ip` for a prefix length `p` (what
`strict=False` normalization does). -/
def maskBase (ip p : Nat) : Nat := ip / 2 ^ (32 - p) * 2 ^ (32 - p)

/-- The netmask integer of a prefix length. -/
def netmaskOf (p : Nat) : Nat := 2 ^ 32 - 2 ^ (32 - p)

/-- An IPv4 network value: the (already masked) base address and the prefix
length. -/
structure Net where
  base : Nat
  plen : Nat
deriving DecidableEq, Repr

/-- Embedding of `ipaddress.ip_network(s, strict=False)` on the IPv4
grammar: an address with an optional mask part; the mask may be a prefix
length, a netmask, or a hostmask, exactly the three forms `ipaddress`
accepts; host bits are masked away rather than rejected. -/
def ip_network (s : String) : Option Net :=
  match Py.pySplit s '/' with
  | [addr] => (ip_address addr).map (fun ip => ⟨ip, 32⟩)
  | [addr, m] =>
    match ip_address addr with
    | none => none
    | some ip =>
      match parsePrefixLen m with
      | some p => some ⟨maskBase ip p, p⟩
      | none =>
        match ip_address m with
        | none => none
        | some mi =>
          match (List.range 33).find? (fun p => netmaskOf p == mi) with
          | some p => some ⟨maskBase ip p, p⟩
          | none =>
            match (List.range 33).find? (fun p => 2 ^ (32 - p) - 1 == mi) with
            | some p => some ⟨maskBase ip p, p⟩
            | none => none
  | _ => none

/-- Membership test `address in network` of `ipaddress`. -/
def netContains (n : Net) (ip : Nat) : Bool := maskBase ip n.plen == n.base

/-- The expression `ip_range_str.split(',')[0].strip()` of
`NetworkScreen.load_configs`: the (trimmed) low endpoint of a raw
used-range string. -/
def rangeLow (s : String) : String := Py.strip ((Py.pySplit s ',').headD "")

end AddressSpace

namespace Networks

/-- Provider-network records are opaque to every claim about this screen:
the code only appends, replaces, deletes and compares them, so they are
embedded as atoms compared by equality. -/
abbrev PNet := String

/-- The `global_overrides` mapping of `openstack_user_config.yml`.  `none`
means the key is absent (`dict.get` default applies); `rest` collects the
other keys of the nested mapping, which the code never touches. -/
structure GlobalOverrides where
  provider_networks : Option (List PNet)
  cidr_networks : Option (List (String × String))
  rest : List (String × String)
deriving DecidableEq, Repr

/-- The network document `openstack_user_config.yml` as `yaml.load` yields
it: the three keys the code reads and writes, plus the opaque remainder.
`none` marks an absent key. -/
structure UserDoc where
  cidr_networks : Option (List (String × String))
  used_ips : Option (List String)
  global_overrides : Option GlobalOverrides
  rest : List (String × String)
deriving DecidableEq, Repr

/-- Python `dict` equality on an association list with unique keys:
order-insensitive, lookup-based in both directions. -/
def alistEq (a b : List (String × String)) : Bool :=
  a.all (fun p => b.lookup p.1 == some p.2) && b.all (fun p => a.lookup p.1 == some p.2)

/-- Lift an equality test to `Option` (both absent, or both present and
equal), matching Python key-presence semantics. -/
def optEqBy (f : α → α → Bool) : Option α → Option α → Bool
  | none, none => true
  | some x, some y => f x y
  | _, _ => false

/-- Python equality on the `global_overrides` mapping: the provider list is
compared as a list, the nested cidr mapping and the remainder as dicts. -/
def goEq (x y : GlobalOverrides) : Bool :=
  optEqBy (fun a b => a == b) x.provider_networks y.provider_networks &&
  optEqBy alistEq x.cidr_networks y.cidr_networks &&
  alistEq x.rest y.rest

/-- Python `==` on two loaded documents (used by `has_unsaved_changes` as
`initial_comparable_data != current_data`): dicts compare
order-insensitively, the `used_ips` list order-sensitively. -/
def docEq (x y : UserDoc) : Bool :=
  optEqBy alistEq x.cidr_networks y.cidr_networks &&
  x.used_ips == y.used_ips &&
  optEqBy goEq x.global_overrides y.global_overrides &&
  alistEq x.rest y.rest

/-- Python truthiness of a loaded document (`if not self.initial_data`): a
dict is falsy exactly when it has no keys. -/
def docTruthy (d : UserDoc) : Bool :=
  d.cidr_networks.isSome || d.used_ips.isSome || d.global_overrides.isSome ||
    !d.rest.isEmpty

/-- One entry of `processed_cidrs`: the cidr string and the derived
used-range list of a block. -/
structure Block where
  cidr : String
  used_ips : List String
deriving DecidableEq, Repr

/-- The value of the reactive `cidr_networks` property: block name to
`Block`, in dict insertion order. -/
abbrev Blocks := List (String × Block)

/-- The name-to-cidr projection `{name: data['cidr'] for ...}` used by both
`action_save_configs` and `has_unsaved_changes`. -/
def currentCidrs (bs : Blocks) : List (String × String) :=
  bs.map (fun p => (p.1, p.2.cidr))

/-- The flat range list rebuilt by the `new_used_ips.extend(...)` loops of
`action_save_configs` and `has_unsaved_changes`: the concatenation of each
block's derived list in block-iteration order. -/
def usedJoin (bs : Blocks) : List String :=
  (bs.map (fun p => p.2.used_ips)).flatten

/-- The `cidr_net_objects` list of `load_configs`: each declared block whose
cidr string parses, paired with its parsed network; unparseable blocks are
skipped (with only a log line). -/
def cidrObjs (raw : List (String × String)) : List (String × AddressSpace.Net) :=
  raw.filterMap (fun p => (AddressSpace.ip_network p.2).map (fun n => (p.1, n)))

/-- The inner search of the range-association loop: the first declared
block (in iteration order) whose network contains `ip`. -/
def findOwner (objs : List (String × AddressSpace.Net)) (ip : Nat) : Option String :=
  (objs.find? (fun p => AddressSpace.netContains p.2 ip)).map Prod.fst

/-- Where a raw range string ends up: parse its low endpoint and find the
first containing block; `none` means the parse failed or the range is
orphaned (both cases only log a warning). -/
def assignTarget (objs : List (String × AddressSpace.Net)) (r : String) : Option String :=
  match AddressSpace.ip_address (AddressSpace.rangeLow r) with
  | none => none
  | some ip => findOwner objs ip

/-- The mutation `processed_cidrs[net_name]["used_ips"].append(ip_range_str)`. -/
def appendRange (bs : Blocks) (name r : String) : Blocks :=
  bs.map (fun p => if p.1 = name then (p.1, ⟨p.2.cidr, p.2.used_ips ++ [r]⟩) else p)

/-- One iteration of the `for ip_range_str in used_ips_raw` loop of
`load_configs`. -/
def assignRange (objs : List (String × AddressSpace.Net)) (bs : Blocks) (r : String) :
    Blocks :=
  match assignTarget objs r with
  | none => bs
  | some name => appendRange bs name r

/-- The screen state the claims are about: the change-detection baseline
`self.initial_data` (`none` while nothing has been loaded) and the two
reactive collections. -/
structure LoadedState where
  initial_data : Option UserDoc
  provider_networks : List PNet
  cidr_networks : Blocks
deriving DecidableEq, Repr

/-- Embedding of the data part of `NetworkScreen.load_configs`
(networks.py lines 296-352): snapshot the raw document, seed every declared
block with an empty derived list, then associate each raw range with the
first block whose parsed cidr contains its low endpoint. -/
def load_configs (d : UserDoc) : LoadedState :=
  let raw := d.cidr_networks.getD []
  let processed : Blocks := raw.map (fun p => (p.1, ⟨p.2, []⟩))
  let objs := cidrObjs raw
  let blocks := (d.used_ips.getD []).foldl (assignRange objs) processed
  ⟨some d, (d.global_overrides.bind GlobalOverrides.provider_networks).getD [], blocks⟩

/-- Python `sorted` on a list of range strings. -/
def pySorted (l : List String) : List String :=
  Py.pySorted l

/-- An absent `global_overrides` mapping materialized by `setdefault`. -/
def emptyGO : GlobalOverrides := ⟨none, none, []⟩

/-- The statement `current_data.setdefault("global_overrides", {})["provider_networks"] = ...`. -/
def setPN (go : Option GlobalOverrides) (pns : List PNet) : GlobalOverrides :=
  { go.getD emptyGO with provider_networks := some pns }

/-- Embedding of `NetworkScreen.has_unsaved_changes` (lines 620-644). -/
def has_unsaved_changes (st : LoadedState) : Bool :=
  match st.initial_data with
  | none => false
  | some d =>
    if !docTruthy d then false
    else
      let cur : UserDoc :=
        { d with cidr_networks := some (currentCidrs st.cidr_networks),
                 used_ips := some (pySorted (usedJoin st.cidr_networks)),
                 global_overrides := some (setPN d.global_overrides st.provider_networks) }
      let ini : UserDoc := { d with used_ips := some (pySorted (d.used_ips.getD [])) }
      !(docEq ini cur)

/-- The validation failures of `AddEditCidrNetworkScreen.on_save`, each
carrying what the corresponding error message names. -/
inductive FormError
  | emptyFields
  | noMask
  | badCidr (value : String)
  | badIp (addr : String)
  | rangeOutside (range value : String)
deriving DecidableEq, Repr

/-- The `for ip_range in used_ips_list` validation loop of `on_save`
(lines 204-214): split each range on commas, trim the parts, parse the
first and last part, and require both inside the network. -/
def checkRanges (net : AddressSpace.Net) (value : String) :
    List String → Except FormError Unit
  | [] => .ok ()
  | r :: rs =>
    let parts := (Py.pySplit r ',').map Py.strip
    match AddressSpace.ip_address (parts.headD "") with
    | none => .error (.badIp (parts.headD ""))
    | some s =>
      match AddressSpace.ip_address (parts.getLastD "") with
      | none => .error (.badIp (parts.getLastD ""))
      | some e =>
        if !(AddressSpace.netContains net s) || !(AddressSpace.netContains net e) then
          .error (.rangeOutside r value)
        else checkRanges net value rs

/-- Embedding of `AddEditCidrNetworkScreen.on_save` (lines 180-220).  The
inputs are the two text fields and the already line-split text of the
used-IPs area; on success the dialog dismisses with the name and the new
block record. -/
def on_save (nameRaw valueRaw : String) (textLines : List String) :
    Except FormError (String × Block) :=
  let name := Py.strip nameRaw
  let value := Py.strip valueRaw
  let used := (textLines.map Py.strip).filter (fun l => l ≠ "")
  if name = "" ∨ value = "" then .error .emptyFields
  else if !(value.toList.contains '/') then .error .noMask
  else
    match AddressSpace.ip_network value with
    | none => .error (.badCidr value)
    | some net =>
      match checkRanges net value used with
      | .error e => .error e
      | .ok _ => .ok (name, ⟨value, used⟩)

/-- Python `current_cidrs[name] = data` on the blocks dict. -/
def dictInsertB (bs : Blocks) (k : String) (v : Block) : Blocks :=
  if (bs.lookup k).isSome then bs.map (fun p => if p.1 = k then (k, v) else p)
  else bs ++ [(k, v)]

/-- What the screen does with the dialog result (`action_edit_cidr` /
`on_add_cidr_button_pressed`): on a validation error the dialog never
dismisses with a value, so the blocks dict is untouched; on success the
returned entry is dict-assigned. -/
def applyCidrForm (bs : Blocks) (nameRaw valueRaw : String) (lines : List String) :
    Blocks :=
  match on_save nameRaw valueRaw lines with
  | .ok (n, b) => dictInsertB bs n b
  | .error _ => bs

/-- The mutations the screen can perform on the in-memory model. -/
inductive Mutation
  | upsertBlock (nameRaw valueRaw : String) (lines : List String)
  | deleteBlock (name : String)
  | addProvider (pn : PNet)
  | editProvider (i : Nat) (pn : PNet)
  | deleteProvider (i : Nat)

/-- Apply one mutation: blocks go through the validated dialog
(`applyCidrForm`), deletion is `dict.pop` / `list.pop`, provider edits are
list append / assignment.  `initial_data` is never touched by mutations. -/
def applyMutation (st : LoadedState) : Mutation → LoadedState
  | .upsertBlock n v ls => { st with cidr_networks := applyCidrForm st.cidr_networks n v ls }
  | .deleteBlock n => { st with cidr_networks := st.cidr_networks.filter (fun p => p.1 ≠ n) }
  | .addProvider pn => { st with provider_networks := st.provider_networks ++ [pn] }
  | .editProvider i pn => { st with provider_networks := st.provider_networks.set i pn }
  | .deleteProvider i => { st with provider_networks := st.provider_networks.eraseIdx i }

/-- Fold a mutation sequence over the screen state. -/
def applyMutations (st : LoadedState) (ms : List Mutation) : LoadedState :=
  ms.foldl applyMutation st

/-- Outcome of `NetworkScreen.action_save_configs`. -/
inductive SaveResult
  | refused
  | crashed
  | saved (doc : UserDoc)
deriving DecidableEq, Repr

/-- Embedding of `NetworkScreen.action_save_configs` (lines 568-618).
`fileDoc` is what re-reading `openstack_user_config.yml` yields.  The save
is refused when `has_unsaved_changes` is false.  When the file has no
`cidr_networks` key the code inserts a plain `dict`, whose missing
`yaml_set_anchor` attribute raises an uncaught `AttributeError`: `crashed`.
Otherwise the shared mapping is cleared and refilled in place, so both the
top-level key and `global_overrides['cidr_networks']` end up holding the
rebuilt name-to-cidr mapping, and the flat `used_ips` is the concatenation
of the per-block derived lists. -/
def action_save_configs (st : LoadedState) (fileDoc : UserDoc) : SaveResult :=
  if !(has_unsaved_changes st) then .refused
  else
    match fileDoc.cidr_networks with
    | none => .crashed
    | some _ =>
      let newCidrs := currentCidrs st.cidr_networks
      let go := fileDoc.global_overrides.getD emptyGO
      .saved { fileDoc with
        used_ips := some (usedJoin st.cidr_networks),
        cidr_networks := some newCidrs,
        global_overrides := some { go with cidr_networks := some newCidrs,
                                           provider_networks := some st.provider_networks } }

/-- The gate of `action_pop_screen` (lines 650-662): a confirmation dialog
is pushed exactly when `has_unsaved_changes` reports drift. -/
def popNeedsConfirm (st : LoadedState) : Bool := has_unsaved_changes st

/-- Embedding of `GenericConfigScreen.has_unsaved_changes`
(generic.py lines 119-130): false while the baseline dict is empty,
otherwise a per-key comparison of the two endpoint fields. -/
def generic_has_unsaved_changes (initial_data : List (String × String))
    (internal external : String) : Bool :=
  if initial_data.isEmpty then false
  else
    [("internal_lb_vip_address", internal), ("external_lb_vip_address", external)].any
      (fun p => ((initial_data.lookup p.1).getD "") ≠ p.2)

/-- Invariant: a range string in a block's derived list has a low endpoint
that parses and lies inside the block's own (parseable) cidr. -/
def rangeLowOkIn (cidr r : String) : Prop :=
  ∃ net ip, AddressSpace.ip_network cidr = some net ∧
    AddressSpace.ip_address (AddressSpace.rangeLow r) = some ip ∧
    AddressSpace.netContains net ip = true

/-- Every derived range of every block sits inside its own block's cidr. -/
def GoodBlocks (bs : Blocks) : Prop :=
  ∀ p ∈ bs, ∀ r ∈ p.2.used_ips, rangeLowOkIn p.2.cidr r

/-- Unique block names (YAML mappings and Python dicts cannot repeat keys). -/
def keysNodup (bs : Blocks) : Prop := (bs.map Prod.fst).Nodup

/-- The well-formedness the save/reload argument needs. -/
def WFBlocks (bs : Blocks) : Prop := keysNodup bs ∧ GoodBlocks bs

/-- Unique keys of a raw association list. -/
def alistNodup (a : List (String × String)) : Prop := (a.map Prod.fst).Nodup

/-- Key uniqueness of a loaded document, as YAML guarantees. -/
def DocWF (d : UserDoc) : Prop :=
  alistNodup (d.cidr_networks.getD []) ∧ alistNodup d.rest ∧
  ∀ go, d.global_overrides = some go →
    alistNodup go.rest ∧ alistNodup (go.cidr_networks.getD [])

end Networks

namespace AnchorSave

/-- A YAML mapping object (the content of a `CommentedMap`). -/
abbrev CMap := List (String × String)

/-- A micro-heap of mapping objects; an object reference is its index. -/
structure Heap where
  store : List CMap
deriving DecidableEq, Repr

/-- Dereference. -/
def hget (h : Heap) (r : Nat) : CMap := (h.store[r]?).getD []

/-- In-place mutation of the object at `r` (what `.clear()` followed by
`.update(new_cidrs)` amounts to on an object reference). -/
def hset (h : Heap) (r : Nat) (v : CMap) : Heap := ⟨h.store.set r v⟩

/-- Allocate a fresh object. -/
def halloc (h : Heap) (v : CMap) : Heap × Nat := (⟨h.store ++ [v]⟩, h.store.length)

/-- The part of the in-memory `config_data` that the anchor-preserving block
of `action_save_configs` manipulates: the heap of mapping objects, which of
them were created as plain Python dicts (those have no `yaml_set_anchor`),
the reference held at the top-level `cidr_networks` key, whether
`global_overrides` exists and which reference its `cidr_networks` key holds,
and the anchor names attached to objects (`always_dump` anchors). -/
structure CfgState where
  heap : Heap
  plainDicts : List Nat
  topCidr : Option Nat
  hasGO : Bool
  goCidr : Option Nat
  anchors : List (Nat × String)
deriving DecidableEq, Repr

/-- `yaml_set_anchor(name, always_dump=True)`: the object at `r` now carries
anchor `name` (replacing any previous anchor of that object). -/
def setAnchor (s : CfgState) (r : Nat) (name : String) : CfgState :=
  { s with anchors := (s.anchors.filter (fun p => p.1 ≠ r)) ++ [(r, name)] }

/-- References held by a state must point into its heap. -/
def WFCfg (s : CfgState) : Prop :=
  ∀ r, s.topCidr = some r → r < s.heap.store.length

/-- Embedding of networks.py lines 596-607, the anchor-preserving rewrite of
the shared `cidr_networks` mapping:

* `setdefault('global_overrides', {})` materializes the nested mapping;
* a missing top-level `cidr_networks` key is filled with a plain `{}` —
  a plain dict, which makes the later `yaml_set_anchor` call raise an
  uncaught `AttributeError` (the `error` branch);
* the nested key is pointed at the very object the top-level key holds;
* that shared object gets the named `always_dump` anchor and is then
  cleared and refilled in place with the rebuilt mapping. -/
def saveAnchorSteps (s0 : CfgState) (newCidrs : CMap) : Except String CfgState :=
  let s1 := if s0.hasGO then s0 else { s0 with hasGO := true, goCidr := none }
  let s2r : CfgState × Nat :=
    match s1.topCidr with
    | some r => (s1, r)
    | none =>
      let (h, r) := halloc s1.heap []
      ({ s1 with heap := h, topCidr := some r, plainDicts := s1.plainDicts ++ [r] }, r)
  let s2 := s2r.1
  let r := s2r.2
  let s3 := { s2 with goCidr := some r }
  if r ∈ s3.plainDicts then .error "AttributeError"
  else
    let s4 := setAnchor s3 r "cidr_networks"
    .ok { s4 with heap := hset s4.heap r newCidrs }

/-- What the serializer emits at one occurrence of a mapping object. -/
inductive Emission
  | anchored (name : String) (content : CMap)
  | aliased (name : String)
  | plain (content : CMap)
deriving DecidableEq, Repr

/-- Emission behavior of the `ruamel` round-trip dumper for one occurrence
of the object `r`: the first occurrence of an object carrying an
`always_dump` anchor emits the anchored node, every later occurrence of the
same object emits an alias to that anchor. -/
def emitAt (s : CfgState) (seen : List Nat) (r : Nat) : Emission × List Nat :=
  if r ∈ seen then
    match s.anchors.lookup r with
    | some n => (.aliased n, seen)
    | none => (.plain (hget s.heap r), seen)
  else
    match s.anchors.lookup r with
    | some n => (.anchored n (hget s.heap r), seen ++ [r])
    | none => (.plain (hget s.heap r), seen ++ [r])

/-- The serialized form of the two `cidr_networks` locations of the
document, in their serialization order: the top-level key first, then —
when `global_overrides` exists — its nested key. -/
def serializeCidrLocations (s : CfgState) : List Emission :=
  let locs :=
    (match s.topCidr with | some r => [r] | none => []) ++
    (if s.hasGO then (match s.goCidr with | some r => [r] | none => []) else [])
  (locs.foldl (fun (acc : List Emission × List Nat) r =>
      let (e, seen) := emitAt s acc.2 r
      (acc.1 ++ [e], seen)) ([], [])).1

end AnchorSave

namespace Examples

open Networks

/-- A document whose single used range `192.168.9.9` lies in no declared
block (the scenario of spec section 8). -/
def orphanDoc : UserDoc :=
  ⟨some [("mgmt", "10.0.0.0/24")], some ["192.168.9.9"],
   some ⟨some [], none, []⟩, []⟩

/-- A document whose flat range list interleaves two blocks: block `b`'s
range appears before block `a`'s. -/
def interleavedDoc : UserDoc :=
  ⟨some [("a", "10.0.0.0/24"), ("b", "10.0.1.0/24")],
   some ["10.0.1.1", "10.0.0.1"],
   some ⟨some [], none, []⟩, []⟩

/-- The document `action_save_configs` writes for `interleavedDoc` after a
provider network `pn` is added: the ranges come back grouped by block. -/
def interleavedSaved : UserDoc :=
  ⟨some [("a", "10.0.0.0/24"), ("b", "10.0.1.0/24")],
   some ["10.0.0.1", "10.0.1.1"],
   some ⟨some ["pn"], some [("a", "10.0.0.0/24"), ("b", "10.0.1.0/24")], []⟩, []⟩

/-- A second copy of the interleaved document for the round-trip claim. -/
def roundtripDoc : UserDoc :=
  ⟨some [("a", "10.0.0.0/24"), ("b", "10.0.1.0/24")],
   some ["10.0.1.1", "10.0.0.1"],
   some ⟨some [], none, []⟩, []⟩

/-- The saved form of `roundtripDoc` after adding provider network `pn`. -/
def roundtripSaved : UserDoc :=
  ⟨some [("a", "10.0.0.0/24"), ("b", "10.0.1.0/24")],
   some ["10.0.0.1", "10.0.1.1"],
   some ⟨some ["pn"], some [("a", "10.0.0.0/24"), ("b", "10.0.1.0/24")], []⟩, []⟩

/-- A loaded `config_data` heap state for the anchor claim: one mapping
object at address 0, held by the top-level `cidr_networks` key, no
`global_overrides` yet. -/
def anchorState : AnchorSave.CfgState :=
  ⟨⟨[[("old", "1.2.3.0/24")]]⟩, [], some 0, false, none, []⟩

/-- The state `saveAnchorSteps` produces from `anchorState` for the rebuilt
mapping `m`. -/
def anchorSavedState : AnchorSave.CfgState :=
  ⟨⟨[[("m", "10.0.0.0/24")]]⟩, [], some 0, true, some 0, [(0, "cidr_networks")]⟩

end Examples

/-! ## Theorems -/

/-- C1: the claim says the override file `wizzard.yml` is always applied
last.  The code computes a `config_files` list sorted to put `wizzard.yml`
last (config.py lines 61-63) but the loading loop on line 64 iterates
`sorted(service_dir_path.glob("*.y*ml"))` instead, so files sorting after
`wizzard.yml` overwrite its keys: with `wizzard.yml = {k: w}` and
`zz.yml = {k: z}` in the service directory, the merged mapping holds `z`,
not the override value `w`, contradicting the code's own comment
"Ensure wizard.yml is loaded last to have the highest precedence". -/
theorem c1_wizzard_not_applied_last :
    (ServiceConfig.load_service_config
        ⟨[], [("wizzard.yml", [("k", "w")]), ("zz.yml", [("k", "z")])]⟩ "haproxy").2
      = [("k", "z")] := by
  rfl

/-- C6: the claim says each existing legacy file is moved to its own
renamed target with no data loss.  In config.py lines 47-53 `new_name` is
computed only once (`if not new_name`), so when both `haproxy.yml = {a: 1}`
and `haproxy_all.yml = {b: 2}` exist, both are moved to the single target
`migrated_haproxy.yml` and the second move overwrites the first: the
service directory ends with one file holding only `{b: 2}`, and key `a`
is gone from the merged result. -/
theorem c6_second_legacy_file_overwrites_first :
    ServiceConfig.load_service_config
        ⟨[("haproxy.yml", [("a", "1")]), ("haproxy_all.yml", [("b", "2")])], []⟩ "haproxy"
      = (⟨[], [("migrated_haproxy.yml", [("b", "2")])]⟩, [("b", "2")]) := by
  rfl

/-- C7: `loadService` on a directory containing only the legacy file
`haproxy.yml` moves it to `group_vars/haproxy/migrated_haproxy.yml` and
returns its contents merged; a second call finds no legacy file, leaves the
filesystem untouched, and returns the same merged contents. -/
theorem c7_migration_idempotent (d : ServiceConfig.Doc) :
    ServiceConfig.load_service_config ⟨[("haproxy.yml", d)], []⟩ "haproxy"
        = (⟨[], [("migrated_haproxy.yml", d)]⟩, ServiceConfig.dictUpdate [] d) ∧
    ServiceConfig.load_service_config ⟨[], [("migrated_haproxy.yml", d)]⟩ "haproxy"
        = (⟨[], [("migrated_haproxy.yml", d)]⟩, ServiceConfig.dictUpdate [] d) := by
  constructor <;> rfl

/-- Totality of the Python code-point string comparison. -/
theorem leChars_total : ∀ a b : List Char, Py.leChars a b = true ∨ Py.leChars b a = true
  | [], _ => Or.inl rfl
  | _ :: _, [] => Or.inr rfl
  | a :: as, b :: bs => by
    unfold Py.leChars
    by_cases h : a = b
    · subst h; simp only [if_pos rfl]; exact leChars_total as bs
    · have h' : b ≠ a := fun e => h e.symm
      simp only [if_neg h, if_neg h']
      rcases lt_trichotomy a b with hlt | heq | hgt
      · exact Or.inl (decide_eq_true hlt)
      · exact absurd heq h
      · exact Or.inr (decide_eq_true hgt)

/-- Transitivity of the Python code-point string comparison. -/
theorem leChars_trans : ∀ a b c : List Char, Py.leChars a b = true → Py.leChars b c = true →
    Py.leChars a c = true
  | [], _, _, _, _ => rfl
  | _ :: _, [], _, h, _ => absurd h (by simp [Py.leChars])
  | _ :: _, _ :: _, [], _, h2 => absurd h2 (by simp [Py.leChars])
  | a :: as, b :: bs, c :: cs, h1, h2 => by
    unfold Py.leChars at h1 h2 ⊢
    by_cases hab : a = b
    · subst hab
      simp only [if_pos rfl] at h1
      by_cases hac : a = c
      · subst hac; simp only [if_pos rfl] at h2 ⊢; exact leChars_trans as bs cs h1 h2
      · simp only [if_neg hac] at h2 ⊢; exact h2
    · simp only [if_neg hab] at h1
      have hab' : a < b := of_decide_eq_true h1
      by_cases hbc : b = c
      · subst hbc
        simp only [if_neg hab]
        exact decide_eq_true hab'
      · simp only [if_neg hbc] at h2
        have hac' : a < c := lt_trans hab' (of_decide_eq_true h2)
        simp only [if_neg (ne_of_lt hac')]
        exact decide_eq_true hac'

/-- Antisymmetry of the Python code-point string comparison. -/
theorem leChars_antisymm : ∀ a b : List Char, Py.leChars a b = true → Py.leChars b a = true →
    a = b
  | [], [], _, _ => rfl
  | [], _ :: _, _, h2 => absurd h2 (by simp [Py.leChars])
  | _ :: _, [], h1, _ => absurd h1 (by simp [Py.leChars])
  | a :: as, b :: bs, h1, h2 => by
    unfold Py.leChars at h1 h2
    by_cases hab : a = b
    · subst hab
      simp only [if_pos rfl] at h1 h2
      rw [leChars_antisymm as bs h1 h2]
    · have hba : b ≠ a := fun e => hab e.symm
      simp only [if_neg hab] at h1
      simp only [if_neg hba] at h2
      exact absurd (of_decide_eq_true h2) (lt_asymm (of_decide_eq_true h1))

/-- Sorting is a permutation. -/
theorem pySorted_perm (l : List String) : (Py.pySorted l).Perm l :=
  List.perm_insertionSort _ l

/-- The sort output is sorted for the code-point comparison. -/
theorem pySorted_sorted (l : List String) :
    List.Sorted (fun a b : String => Py.leB a b = true) (Py.pySorted l) :=
  @List.sorted_insertionSort String (fun a b : String => Py.leB a b = true) _
    ⟨fun a b => leChars_total a.toList b.toList⟩
    ⟨fun a b c => leChars_trans a.toList b.toList c.toList⟩ l

/-- Python `sorted` maps permuted lists to the same output. -/
theorem pySorted_congr {l₁ l₂ : List String} (h : l₁.Perm l₂) :
    Py.pySorted l₁ = Py.pySorted l₂ := by
  refine @List.eq_of_perm_of_sorted String (fun a b : String => Py.leB a b = true)
    ⟨fun a b h1 h2 => ?_⟩ _ _
    (((pySorted_perm l₁).trans h).trans (pySorted_perm l₂).symm)
    (pySorted_sorted l₁) (pySorted_sorted l₂)
  have := leChars_antisymm a.toList b.toList h1 h2
  exact String.ext (by simpa [String.toList] using this)

/-- The anchor set by `setAnchor` is the one `lookup` finds for the object. -/
theorem lookup_filter_append_self (l : List (Nat × String)) (r : Nat) (name : String) :
    ((l.filter (fun p => !decide (p.1 = r))) ++ [(r, name)]).lookup r = some name := by
  induction l with
  | nil => simp [List.lookup]
  | cons p t ih =>
    obtain ⟨k, v⟩ := p
    by_cases h : k = r
    · simp only [List.filter_cons, h]
      simpa using ih
    · have hb : (r == k) = false := beq_eq_false_iff_ne.mpr (fun e => h e.symm)
      rw [List.filter_cons, if_pos (by simpa using h), List.cons_append]
      simp only [List.lookup, hb]
      exact ih

/-- Reading back an in-place heap update. -/
theorem hget_hset_self (h : AnchorSave.Heap) (r : Nat) (v : AnchorSave.CMap)
    (hr : r < h.store.length) :
    AnchorSave.hget (AnchorSave.hset h r v) r = v := by
  simp [AnchorSave.hget, AnchorSave.hset, List.getElem?_set_self, hr]

/-- C3: after every successful run of the anchor-preserving save block, the
top-level `cidr_networks` key and the nested `global_overrides` key hold the
same object reference (not two copies), that object holds the rebuilt
mapping, and the serializer emits it once as a node carrying the named
anchor, with an alias at the second location. -/
theorem c3_anchor_alias (s0 : AnchorSave.CfgState) (nc : AnchorSave.CMap)
    (s' : AnchorSave.CfgState)
    (hwf : AnchorSave.WFCfg s0)
    (hok : AnchorSave.saveAnchorSteps s0 nc = .ok s') :
    ∃ r, s'.topCidr = some r ∧ s'.goCidr = some r ∧
      AnchorSave.hget s'.heap r = nc ∧
      AnchorSave.serializeCidrLocations s' =
        [.anchored "cidr_networks" nc, .aliased "cidr_networks"] := by
  unfold AnchorSave.saveAnchorSteps at hok
  cases hGO : s0.hasGO <;> simp only [hGO, if_true, if_false, Bool.false_eq_true] at hok <;>
  · cases htc : s0.topCidr with
    | none =>
      simp only [htc] at hok
      simp [AnchorSave.halloc] at hok
    | some r =>
      simp only [htc] at hok
      by_cases hp : r ∈ s0.plainDicts
      · simp [hp] at hok
      · rw [if_neg (by simpa using hp)] at hok
        simp only [Except.ok.injEq] at hok
        subst hok
        have hlook := lookup_filter_append_self s0.anchors r "cidr_networks"
        refine ⟨r, rfl, rfl, ?_, ?_⟩
        · exact hget_hset_self _ _ _ (hwf r htc)
        · simp only [AnchorSave.serializeCidrLocations, AnchorSave.setAnchor, ne_eq,
            decide_not, hGO, if_true, List.singleton_append]
          simp only [List.foldl, AnchorSave.emitAt]
          simp only [hlook]
          simp [hget_hset_self _ _ _ (hwf r htc)]

/-- C3 witness: the theorem applied to a concrete loaded state with one
mapping object. -/
theorem c3_anchor_alias_witness :
    ∃ r, Examples.anchorSavedState.topCidr = some r ∧
      Examples.anchorSavedState.goCidr = some r ∧
      AnchorSave.hget Examples.anchorSavedState.heap r = [("m", "10.0.0.0/24")] ∧
      AnchorSave.serializeCidrLocations Examples.anchorSavedState =
        [.anchored "cidr_networks" [("m", "10.0.0.0/24")], .aliased "cidr_networks"] :=
  c3_anchor_alias Examples.anchorState [("m", "10.0.0.0/24")] Examples.anchorSavedState
    (fun r h => by injection h with h2; subst h2; decide) (by rfl)

/-- Success of the used-range validation loop means every range's trimmed
first and last comma-part parse and lie inside the network. -/
theorem checkRanges_ok_mem {net : AddressSpace.Net} {v : String} :
    ∀ {rs : List String}, Networks.checkRanges net v rs = .ok () →
      ∀ r ∈ rs, ∃ s e,
        AddressSpace.ip_address (((Py.pySplit r ',').map Py.strip).headD "") = some s ∧
        AddressSpace.ip_address (((Py.pySplit r ',').map Py.strip).getLastD "") = some e ∧
        AddressSpace.netContains net s = true ∧ AddressSpace.netContains net e = true := by
  intro rs
  induction rs with
  | nil => intro _ r hr; cases hr
  | cons r0 rt ih =>
    intro h r hr
    unfold Networks.checkRanges at h
    dsimp only at h
    cases hs : AddressSpace.ip_address (((Py.pySplit r0 ',').map Py.strip).headD "") with
    | none => rw [hs] at h; cases h
    | some s0 =>
      rw [hs] at h
      dsimp only at h
      cases he : AddressSpace.ip_address (((Py.pySplit r0 ',').map Py.strip).getLastD "") with
      | none => rw [he] at h; cases h
      | some e0 =>
        rw [he] at h
        dsimp only at h
        by_cases hc : (!(AddressSpace.netContains net s0) || !(AddressSpace.netContains net e0)) = true
        · rw [if_pos hc] at h; cases h
        · rw [if_neg hc] at h
          simp only [Bool.or_eq_true, Bool.not_eq_true', not_or, Bool.not_eq_false] at hc
          rcases List.mem_cons.mp hr with rfl | hmem
          · exact ⟨s0, e0, hs, he, hc.1, hc.2⟩
          · exact ih h r hmem

/-- A `rangeOutside` failure of the validation loop names an actual member
of the list whose endpoints parse but fall outside the network. -/
theorem checkRanges_rangeOutside {net : AddressSpace.Net} {v : String} :
    ∀ {rs : List String} {rr cv : String},
      Networks.checkRanges net v rs = .error (.rangeOutside rr cv) →
      cv = v ∧ rr ∈ rs ∧ ∃ s e,
        AddressSpace.ip_address (((Py.pySplit rr ',').map Py.strip).headD "") = some s ∧
        AddressSpace.ip_address (((Py.pySplit rr ',').map Py.strip).getLastD "") = some e ∧
        (AddressSpace.netContains net s = false ∨ AddressSpace.netContains net e = false) := by
  intro rs
  induction rs with
  | nil => intro rr cv h; cases h
  | cons r0 rt ih =>
    intro rr cv h
    unfold Networks.checkRanges at h
    dsimp only at h
    cases hs : AddressSpace.ip_address (((Py.pySplit r0 ',').map Py.strip).headD "") with
    | none => rw [hs] at h; cases h
    | some s0 =>
      rw [hs] at h
      dsimp only at h
      cases he : AddressSpace.ip_address (((Py.pySplit r0 ',').map Py.strip).getLastD "") with
      | none => rw [he] at h; cases h
      | some e0 =>
        rw [he] at h
        dsimp only at h
        by_cases hc : (!(AddressSpace.netContains net s0) || !(AddressSpace.netContains net e0)) = true
        · rw [if_pos hc] at h
          injection h with h
          injection h with h1 h2
          subst h1; subst h2
          simp only [Bool.or_eq_true, Bool.not_eq_true'] at hc
          exact ⟨rfl, List.mem_cons_self _ _, s0, e0, hs, he, hc⟩
        · rw [if_neg hc] at h
          obtain ⟨hcv, hmem, rest⟩ := ih h
          exact ⟨hcv, List.mem_cons_of_mem _ hmem, rest⟩

/-- C5: an add/edit of a block is accepted only when the trimmed name and
cidr are non-empty, the cidr contains a `/`, the cidr parses as a network,
and both endpoints of every supplied used range parse and are contained in
it; on any validation error the dialog does not dismiss with a value, so
the in-memory blocks dict is left unchanged, and a range-containment error
names an offending range of the submitted list. -/
theorem c5_block_validation (nameRaw valueRaw : String) (lines : List String) :
    (∀ n b, Networks.on_save nameRaw valueRaw lines = .ok (n, b) →
      n ≠ "" ∧ b.cidr ≠ "" ∧ b.cidr.toList.contains '/' = true ∧
      ∃ net, AddressSpace.ip_network b.cidr = some net ∧
        ∀ r ∈ b.used_ips, ∃ s e,
          AddressSpace.ip_address (((Py.pySplit r ',').map Py.strip).headD "") = some s ∧
          AddressSpace.ip_address (((Py.pySplit r ',').map Py.strip).getLastD "") = some e ∧
          AddressSpace.netContains net s = true ∧ AddressSpace.netContains net e = true) ∧
    (∀ e, Networks.on_save nameRaw valueRaw lines = .error e →
      ∀ bs, Networks.applyCidrForm bs nameRaw valueRaw lines = bs) ∧
    (∀ rr cv, Networks.on_save nameRaw valueRaw lines = .error (.rangeOutside rr cv) →
      cv = Py.strip valueRaw ∧
      rr ∈ (lines.map Py.strip).filter (fun l => l ≠ "") ∧
      ∃ net s e, AddressSpace.ip_network cv = some net ∧
        AddressSpace.ip_address (((Py.pySplit rr ',').map Py.strip).headD "") = some s ∧
        AddressSpace.ip_address (((Py.pySplit rr ',').map Py.strip).getLastD "") = some e ∧
        (AddressSpace.netContains net s = false ∨ AddressSpace.netContains net e = false)) := by
  refine ⟨?_, ?_, ?_⟩
  · intro n b hok
    unfold Networks.on_save at hok
    dsimp only at hok
    by_cases h1 : Py.strip nameRaw = "" ∨ Py.strip valueRaw = ""
    · rw [if_pos h1] at hok; cases hok
    · rw [if_neg h1] at hok
      rw [not_or] at h1
      by_cases h2 : (!(Py.strip valueRaw).toList.contains '/') = true
      · rw [if_pos h2] at hok; cases hok
      · rw [if_neg h2] at hok
        cases hnet : AddressSpace.ip_network (Py.strip valueRaw) with
        | none => rw [hnet] at hok; cases hok
        | some net =>
          rw [hnet] at hok
          dsimp only at hok
          cases hchk : Networks.checkRanges net (Py.strip valueRaw)
              ((lines.map Py.strip).filter (fun l => l ≠ "")) with
          | error e => rw [hchk] at hok; cases hok
          | ok u =>
            rw [hchk] at hok
            dsimp only at hok
            injection hok with hok
            injection hok with hn hb
            subst hn
            subst hb
            refine ⟨h1.1, h1.2, by simpa using h2, net, hnet, ?_⟩
            exact checkRanges_ok_mem hchk
  · intro e herr bs
    unfold Networks.applyCidrForm
    rw [herr]
  · intro rr cv hok
    unfold Networks.on_save at hok
    dsimp only at hok
    by_cases h1 : Py.strip nameRaw = "" ∨ Py.strip valueRaw = ""
    · rw [if_pos h1] at hok; cases hok
    · rw [if_neg h1] at hok
      by_cases h2 : (!(Py.strip valueRaw).toList.contains '/') = true
      · rw [if_pos h2] at hok; cases hok
      · rw [if_neg h2] at hok
        cases hnet : AddressSpace.ip_network (Py.strip valueRaw) with
        | none => rw [hnet] at hok; cases hok
        | some net =>
          rw [hnet] at hok
          dsimp only at hok
          cases hchk : Networks.checkRanges net (Py.strip valueRaw)
              ((lines.map Py.strip).filter (fun l => l ≠ "")) with
          | error e2 =>
            rw [hchk] at hok
            dsimp only at hok
            injection hok with hok
            subst hok
            obtain ⟨hcv, hmem, s, e, hs, he, hout⟩ := checkRanges_rangeOutside hchk
            exact ⟨hcv, hmem, net, s, e, hcv ▸ hnet, hs, he, hout⟩
          | ok u => rw [hchk] at hok; cases hok

/-- C5 witness: the acceptance direction applied to a concrete valid edit. -/
theorem c5_block_validation_witness :
    ("m" : String) ≠ "" ∧
    (Networks.Block.mk "10.0.0.0/24" ["10.0.0.5,10.0.0.9"]).cidr ≠ "" ∧
    (Networks.Block.mk "10.0.0.0/24" ["10.0.0.5,10.0.0.9"]).cidr.toList.contains '/' = true ∧
    ∃ net, AddressSpace.ip_network (Networks.Block.mk "10.0.0.0/24" ["10.0.0.5,10.0.0.9"]).cidr
        = some net ∧
      ∀ r ∈ (Networks.Block.mk "10.0.0.0/24" ["10.0.0.5,10.0.0.9"]).used_ips, ∃ s e,
        AddressSpace.ip_address (((Py.pySplit r ',').map Py.strip).headD "") = some s ∧
        AddressSpace.ip_address (((Py.pySplit r ',').map Py.strip).getLastD "") = some e ∧
        AddressSpace.netContains net s = true ∧ AddressSpace.netContains net e = true :=
  (c5_block_validation "m" "10.0.0.0/24" ["10.0.0.5,10.0.0.9"]).1 "m"
    ⟨"10.0.0.0/24", ["10.0.0.5,10.0.0.9"]⟩ (by rfl)

/-- Membership in the concatenated per-block range lists. -/
theorem mem_usedJoin {bs : Networks.Blocks} {x : String} :
    x ∈ Networks.usedJoin bs ↔ ∃ p ∈ bs, x ∈ p.2.used_ips := by
  simp only [Networks.usedJoin, List.mem_flatten, List.mem_map]
  constructor
  · rintro ⟨l, ⟨p, hp, rfl⟩, hx⟩
    exact ⟨p, hp, hx⟩
  · rintro ⟨p, hp, hx⟩
    exact ⟨p.2.used_ips, ⟨p, hp, rfl⟩, hx⟩

/-- Appending a range to one block adds only that range to the
concatenation. -/
theorem mem_usedJoin_appendRange {bs : Networks.Blocks} {n r x : String}
    (h : x ∈ Networks.usedJoin (Networks.appendRange bs n r)) :
    x ∈ Networks.usedJoin bs ∨ x = r := by
  rcases mem_usedJoin.mp h with ⟨p', hp', hx⟩
  rcases List.mem_map.mp hp' with ⟨p, hp, rfl⟩
  by_cases hn : p.1 = n
  · rw [if_pos hn] at hx
    rcases List.mem_append.mp hx with h1 | h2
    · exact Or.inl (mem_usedJoin.mpr ⟨p, hp, h1⟩)
    · exact Or.inr (by simpa using h2)
  · rw [if_neg hn] at hx
    exact Or.inl (mem_usedJoin.mpr ⟨p, hp, hx⟩)

/-- Anything in the concatenation after the association loop was either
there before or is a processed range that found an owner. -/
theorem mem_usedJoin_assignFold {objs : List (String × AddressSpace.Net)} :
    ∀ {rs : List String} {bs : Networks.Blocks} {x : String},
      x ∈ Networks.usedJoin (rs.foldl (Networks.assignRange objs) bs) →
      x ∈ Networks.usedJoin bs ∨ (x ∈ rs ∧ Networks.assignTarget objs x ≠ none) := by
  intro rs
  induction rs with
  | nil => intro bs x h; exact Or.inl h
  | cons r rt ih =>
    intro bs x h
    rcases ih h with h1 | h2
    · unfold Networks.assignRange at h1
      cases ht : Networks.assignTarget objs r with
      | none => rw [ht] at h1; exact Or.inl h1
      | some nm =>
        rw [ht] at h1
        rcases mem_usedJoin_appendRange h1 with ha | rfl
        · exact Or.inl ha
        · exact Or.inr ⟨List.mem_cons_self _ _, by rw [ht]; exact Option.some_ne_none nm⟩
    · exact Or.inr ⟨List.mem_cons_of_mem _ h2.1, h2.2⟩

/-- The seeded blocks of `load_configs` start with empty derived lists. -/
theorem usedJoin_seed (raw : List (String × String)) :
    Networks.usedJoin (raw.map (fun p => (p.1, ⟨p.2, []⟩))) = [] := by
  induction raw with
  | nil => rfl
  | cons p t ih =>
    simp only [List.map_cons, Networks.usedJoin, List.flatten_cons] at ih ⊢
    simp [ih]

/-- A range whose low endpoint lies in no parsed block network is assigned
nowhere. -/
theorem assignTarget_of_orphan {objs : List (String × AddressSpace.Net)} {r : String} {ip : Nat}
    (hip : AddressSpace.ip_address (AddressSpace.rangeLow r) = some ip)
    (hno : ∀ q ∈ objs, AddressSpace.netContains q.2 ip = false) :
    Networks.assignTarget objs r = none := by
  unfold Networks.assignTarget
  rw [hip]
  dsimp only
  unfold Networks.findOwner
  rw [List.find?_eq_none.mpr (fun q hq => by simp [hno q hq])]
  rfl

/-- Shape of a successful `action_save_configs`: the re-read file document
with the three managed keys overwritten; success implies the change check
fired and the file had a `cidr_networks` key. -/
theorem action_save_saved {st : Networks.LoadedState} {cfg d' : Networks.UserDoc}
    (h : Networks.action_save_configs st cfg = .saved d') :
    d' = { cfg with
      used_ips := some (Networks.usedJoin st.cidr_networks),
      cidr_networks := some (Networks.currentCidrs st.cidr_networks),
      global_overrides := some { (cfg.global_overrides.getD Networks.emptyGO) with
        cidr_networks := some (Networks.currentCidrs st.cidr_networks),
        provider_networks := some st.provider_networks } } ∧
    Networks.has_unsaved_changes st = true ∧ cfg.cidr_networks.isSome = true := by
  unfold Networks.action_save_configs at h
  cases hc : Networks.has_unsaved_changes st with
  | false => rw [hc] at h; cases h
  | true =>
    rw [hc] at h
    dsimp only at h
    cases hk : cfg.cidr_networks with
    | none => rw [hk] at h; cases h
    | some x =>
      rw [hk] at h
      dsimp only at h
      injection h with h
      exact ⟨h.symm, rfl, by simp [hk]⟩

/-- C2 counterexample: the claim says an orphaned range "is not retained
anywhere in the in-memory model", but the loaded screen state keeps the
full raw document — orphan included — inside the change-detection baseline
`initial_data`, observably so: immediately after loading a document whose
only range `192.168.9.9` is orphaned, `has_unsaved_changes` already reports
true, which it could not if the range were retained nowhere. -/
theorem c2_counterexample :
    (Networks.load_configs Examples.orphanDoc).initial_data = some Examples.orphanDoc ∧
    "192.168.9.9" ∈ Examples.orphanDoc.used_ips.getD [] ∧
    Networks.has_unsaved_changes (Networks.load_configs Examples.orphanDoc) = true :=
  ⟨rfl, by simp [Examples.orphanDoc], by rfl⟩

/-- C2 (amended): a raw used-range whose low endpoint parses but lies in no
declared block's parseable cidr is absent from every block's derived list
and from the rebuilt flat sequence, so a successful save writes a
`used_ips` list that does not contain it; it survives only inside the
change-detection baseline snapshot of the raw document. -/
theorem c2_orphan_dropped (d : Networks.UserDoc) (r : String) (ip : Nat)
    (hip : AddressSpace.ip_address (AddressSpace.rangeLow r) = some ip)
    (hno : ∀ q ∈ Networks.cidrObjs (d.cidr_networks.getD []),
      AddressSpace.netContains q.2 ip = false) :
    (∀ p ∈ (Networks.load_configs d).cidr_networks, r ∉ p.2.used_ips) ∧
    r ∉ Networks.usedJoin (Networks.load_configs d).cidr_networks ∧
    (∀ cfg d', Networks.action_save_configs (Networks.load_configs d) cfg = .saved d' →
      ∃ l, d'.used_ips = some l ∧ r ∉ l) := by
  have hjoin : r ∉ Networks.usedJoin (Networks.load_configs d).cidr_networks := by
    intro hmem
    have hblocks : (Networks.load_configs d).cidr_networks
        = (d.used_ips.getD []).foldl
            (Networks.assignRange (Networks.cidrObjs (d.cidr_networks.getD [])))
            ((d.cidr_networks.getD []).map (fun p => (p.1, ⟨p.2, []⟩))) := rfl
    rw [hblocks] at hmem
    rcases mem_usedJoin_assignFold hmem with h1 | h2
    · rw [usedJoin_seed] at h1; cases h1
    · exact h2.2 (assignTarget_of_orphan hip hno)
  refine ⟨?_, hjoin, ?_⟩
  · intro p hp hr
    exact hjoin (mem_usedJoin.mpr ⟨p, hp, hr⟩)
  · intro cfg d' hs
    obtain ⟨hd', _, _⟩ := action_save_saved hs
    subst hd'
    exact ⟨_, rfl, hjoin⟩

/-- C2 witness: the amended theorem at the concrete orphan document. -/
theorem c2_orphan_dropped_witness :
    (∀ p ∈ (Networks.load_configs Examples.orphanDoc).cidr_networks,
      "192.168.9.9" ∉ p.2.used_ips) ∧
    "192.168.9.9" ∉ Networks.usedJoin (Networks.load_configs Examples.orphanDoc).cidr_networks ∧
    (∀ cfg d',
      Networks.action_save_configs (Networks.load_configs Examples.orphanDoc) cfg = .saved d' →
      ∃ l, d'.used_ips = some l ∧ "192.168.9.9" ∉ l) :=
  c2_orphan_dropped Examples.orphanDoc "192.168.9.9" 3232237833 (by rfl) (by decide)

/-- C8: every successful save writes as `used_ips` exactly the
concatenation of the per-block derived lists in block-iteration order, and
— as the concrete interleaved document shows — this does not preserve the
original file order: the loaded order `[10.0.1.1, 10.0.0.1]` comes back as
`[10.0.0.1, 10.0.1.1]`, grouped by owning block. -/
theorem c8_save_groups_ranges_by_block :
    (∀ (st : Networks.LoadedState) (cfg d' : Networks.UserDoc),
      Networks.action_save_configs st cfg = .saved d' →
      d'.used_ips = some (Networks.usedJoin st.cidr_networks)) ∧
    (Networks.action_save_configs
        (Networks.applyMutations (Networks.load_configs Examples.interleavedDoc)
          [.addProvider "pn"]) Examples.interleavedDoc = .saved Examples.interleavedSaved ∧
      Examples.interleavedSaved.used_ips = some ["10.0.0.1", "10.0.1.1"] ∧
      Examples.interleavedDoc.used_ips = some ["10.0.1.1", "10.0.0.1"]) := by
  refine ⟨?_, by rfl, rfl, rfl⟩
  intro st cfg d' h
  obtain ⟨hd', _, _⟩ := action_save_saved h
  subst hd'
  rfl

/-- C8 witness: the universal conjunct applied to the concrete interleaved
save. -/
theorem c8_witness :
    Examples.interleavedSaved.used_ips
      = some (Networks.usedJoin (Networks.applyMutations
          (Networks.load_configs Examples.interleavedDoc) [.addProvider "pn"]).cidr_networks) :=
  c8_save_groups_ranges_by_block.1 _ Examples.interleavedDoc Examples.interleavedSaved (by rfl)

/-- Mutations never touch the change-detection baseline. -/
theorem applyMutations_initial (st : Networks.LoadedState) (ms : List Networks.Mutation) :
    (Networks.applyMutations st ms).initial_data = st.initial_data := by
  induction ms generalizing st with
  | nil => rfl
  | cons m t ih =>
    have h1 : (Networks.applyMutation st m).initial_data = st.initial_data := by
      cases m <;> rfl
    have h2 : Networks.applyMutations st (m :: t)
        = Networks.applyMutations (Networks.applyMutation st m) t := rfl
    rw [h2, ih, h1]

/-- C10: while nothing has been loaded (`initial_data` still empty),
`has_unsaved_changes` is false for every state, including any state reached
by further mutations; consequently `action_save_configs` refuses as a no-op
and `action_pop_screen` proceeds without a confirmation prompt.  The
generic service screen behaves the same way with its empty baseline. -/
theorem c10_empty_baseline_never_dirty (pns : List Networks.PNet) (bs : Networks.Blocks)
    (ms : List Networks.Mutation) (cfg : Networks.UserDoc) (internal external : String) :
    Networks.has_unsaved_changes (Networks.applyMutations ⟨none, pns, bs⟩ ms) = false ∧
    Networks.action_save_configs (Networks.applyMutations ⟨none, pns, bs⟩ ms) cfg = .refused ∧
    Networks.popNeedsConfirm (Networks.applyMutations ⟨none, pns, bs⟩ ms) = false ∧
    Networks.generic_has_unsaved_changes [] internal external = false := by
  have hinit : (Networks.applyMutations ⟨none, pns, bs⟩ ms).initial_data = none :=
    applyMutations_initial _ _
  have hearly :
      Networks.has_unsaved_changes (Networks.applyMutations ⟨none, pns, bs⟩ ms) = false := by
    unfold Networks.has_unsaved_changes
    rw [hinit]
  refine ⟨hearly, ?_, hearly, rfl⟩
  unfold Networks.action_save_configs
  rw [hearly]
  rfl

/-- Lookup of a member's key in a unique-key association list. -/
theorem lookup_eq_of_nodup {a : List (String × String)} (h : (a.map Prod.fst).Nodup)
    {p : String × String} (hp : p ∈ a) : a.lookup p.1 = some p.2 := by
  induction a with
  | nil => cases hp
  | cons q t ih =>
    obtain ⟨k, v⟩ := q
    rcases List.mem_cons.mp hp with rfl | hmem
    · simp [List.lookup]
    · have hq : k ∉ t.map Prod.fst := by simpa using (List.nodup_cons.mp h).1
      have hne : (p.1 == k) = false :=
        beq_eq_false_iff_ne.mpr (fun e => hq (e ▸ List.mem_map.mpr ⟨p, hmem, rfl⟩))
      simp only [List.lookup, hne]
      exact ih (List.nodup_cons.mp h).2 hmem

/-- Python dict equality is reflexive on unique-key association lists. -/
theorem alistEq_refl {a : List (String × String)} (h : (a.map Prod.fst).Nodup) :
    Networks.alistEq a a = true := by
  simp only [Networks.alistEq, Bool.and_eq_true, List.all_eq_true]
  constructor <;> intro p hp <;> simp [lookup_eq_of_nodup h hp]

/-- Reflexivity of the `global_overrides` comparison. -/
theorem goEq_refl {go : Networks.GlobalOverrides} (h1 : (go.rest.map Prod.fst).Nodup)
    (h2 : ((go.cidr_networks.getD []).map Prod.fst).Nodup) :
    Networks.goEq go go = true := by
  simp only [Networks.goEq, Bool.and_eq_true]
  refine ⟨⟨?_, ?_⟩, alistEq_refl h1⟩
  · cases go.provider_networks <;> simp [Networks.optEqBy]
  · cases hg : go.cidr_networks with
    | none => simp [Networks.optEqBy]
    | some c =>
      rw [hg] at h2
      simpa [Networks.optEqBy] using alistEq_refl (by simpa using h2)

/-- Core of the change detector: when the baseline document's three managed
keys agree with the reconstruction from the current state — the cidr
mapping exactly, the flat range list up to permutation, the provider list
exactly — `has_unsaved_changes` reports false. -/
theorem hasUnsaved_false_of_match (d : Networks.UserDoc) (bs : Networks.Blocks)
    (pns : List Networks.PNet) (go : Networks.GlobalOverrides)
    (hgo : d.global_overrides = some go)
    (hpn : go.provider_networks = some pns)
    (hcidr : d.cidr_networks = some (Networks.currentCidrs bs))
    (hperm : (Networks.usedJoin bs).Perm (d.used_ips.getD []))
    (hk : ((Networks.currentCidrs bs).map Prod.fst).Nodup)
    (hrest : (d.rest.map Prod.fst).Nodup)
    (hgorest : (go.rest.map Prod.fst).Nodup)
    (hgocidr : ((go.cidr_networks.getD []).map Prod.fst).Nodup) :
    Networks.has_unsaved_changes ⟨some d, pns, bs⟩ = false := by
  unfold Networks.has_unsaved_changes
  dsimp only
  have htr : Networks.docTruthy d = true := by
    unfold Networks.docTruthy
    rw [hcidr]
    simp
  rw [htr]
  simp only [Bool.not_true, Bool.false_eq_true, if_false, Bool.not_eq_false]
  have hsetpn : Networks.setPN d.global_overrides pns = go := by
    rw [hgo]
    unfold Networks.setPN
    cases go
    simp only [Option.getD_some]
    simp_all
  unfold Networks.docEq
  suffices hX : (Networks.optEqBy Networks.alistEq d.cidr_networks
        (some (Networks.currentCidrs bs)) &&
      (some (Networks.pySorted (d.used_ips.getD []))
        == some (Networks.pySorted (Networks.usedJoin bs))) &&
      Networks.optEqBy Networks.goEq d.global_overrides
        (some (Networks.setPN d.global_overrides pns)) &&
      Networks.alistEq d.rest d.rest) = true by
    rw [hX]
    rfl
  simp only [Bool.and_eq_true]
  refine ⟨⟨⟨?_, ?_⟩, ?_⟩, alistEq_refl hrest⟩
  · rw [hcidr]
    simpa [Networks.optEqBy] using alistEq_refl hk
  · have hps := pySorted_congr hperm
    simp [Networks.pySorted, hps]
  · rw [hgo] at hsetpn ⊢
    rw [hsetpn]
    simpa [Networks.optEqBy] using goEq_refl hgorest hgocidr


/-- C9: the unsaved-changes comparison sorts both range lists, so a current
state differing from the baseline only by a permutation of the used-range
strings (same block-to-cidr mapping, same provider networks, same
remainder) is reported as unchanged. -/
theorem c9_order_insensitive_ranges (d : Networks.UserDoc) (bs : Networks.Blocks)
    (pns : List Networks.PNet) (go : Networks.GlobalOverrides)
    (hgo : d.global_overrides = some go)
    (hpn : go.provider_networks = some pns)
    (hcidr : d.cidr_networks = some (Networks.currentCidrs bs))
    (hperm : (Networks.usedJoin bs).Perm (d.used_ips.getD []))
    (hk : ((Networks.currentCidrs bs).map Prod.fst).Nodup)
    (hrest : (d.rest.map Prod.fst).Nodup)
    (hgorest : (go.rest.map Prod.fst).Nodup)
    (hgocidr : ((go.cidr_networks.getD []).map Prod.fst).Nodup) :
    Networks.has_unsaved_changes ⟨some d, pns, bs⟩ = false :=
  hasUnsaved_false_of_match d bs pns go hgo hpn hcidr hperm hk hrest hgorest hgocidr

/-- C9 witness: a state whose ranges `[x, y]` are a permutation of the
baseline's `[y, x]` reports no changes. -/
theorem c9_witness :
    Networks.has_unsaved_changes
      ⟨some ⟨some [("m", "10.0.0.0/24")], some ["y", "x"], some ⟨some ["p"], none, []⟩, []⟩,
       ["p"], [("m", ⟨"10.0.0.0/24", ["x", "y"]⟩)]⟩ = false :=
  c9_order_insensitive_ranges _ _ _ ⟨some ["p"], none, []⟩ rfl rfl rfl
    (by decide) (by decide) (by decide) (by decide) (by decide)

/-- Appending a range changes no block names. -/
theorem map_fst_appendRange (bs : Networks.Blocks) (n r : String) :
    (Networks.appendRange bs n r).map Prod.fst = bs.map Prod.fst := by
  unfold Networks.appendRange
  rw [List.map_map]
  refine List.map_congr_left fun p _ => ?_
  by_cases h : p.1 = n <;> simp [h]

/-- Appending a range changes no name or cidr. -/
theorem currentCidrs_appendRange (bs : Networks.Blocks) (n r : String) :
    Networks.currentCidrs (Networks.appendRange bs n r) = Networks.currentCidrs bs := by
  unfold Networks.currentCidrs Networks.appendRange
  rw [List.map_map]
  refine List.map_congr_left fun p _ => ?_
  by_cases h : p.1 = n <;> simp [h]

/-- One association step changes no name or cidr. -/
theorem currentCidrs_assignRange (objs : List (String × AddressSpace.Net))
    (bs : Networks.Blocks) (r : String) :
    Networks.currentCidrs (Networks.assignRange objs bs r) = Networks.currentCidrs bs := by
  unfold Networks.assignRange
  cases Networks.assignTarget objs r with
  | none => rfl
  | some n => exact currentCidrs_appendRange bs n r

/-- The whole association loop changes no name or cidr. -/
theorem currentCidrs_assignFold (objs : List (String × AddressSpace.Net)) :
    ∀ (rs : List String) (bs : Networks.Blocks),
    Networks.currentCidrs (rs.foldl (Networks.assignRange objs) bs) = Networks.currentCidrs bs
  | [], _ => rfl
  | r :: rt, bs => by
    have hfold : (r :: rt).foldl (Networks.assignRange objs) bs
        = rt.foldl (Networks.assignRange objs) (Networks.assignRange objs bs r) := rfl
    rw [hfold, currentCidrs_assignFold objs rt _, currentCidrs_assignRange]

/-- The name-to-cidr projection keeps the key list. -/
theorem map_fst_currentCidrs (bs : Networks.Blocks) :
    (Networks.currentCidrs bs).map Prod.fst = bs.map Prod.fst := by
  unfold Networks.currentCidrs
  rw [List.map_map]
  rfl

/-- The association loop keeps the key list. -/
theorem map_fst_assignFold (objs : List (String × AddressSpace.Net)) (rs : List String)
    (bs : Networks.Blocks) :
    ((rs.foldl (Networks.assignRange objs) bs).map Prod.fst) = bs.map Prod.fst := by
  rw [← map_fst_currentCidrs, currentCidrs_assignFold, map_fst_currentCidrs]

/-- Seeding blocks from the raw mapping projects back to it. -/
theorem currentCidrs_seed (raw : List (String × String)) :
    Networks.currentCidrs (raw.map (fun p => (p.1, ⟨p.2, []⟩))) = raw := by
  unfold Networks.currentCidrs
  rw [List.map_map]
  exact List.map_id raw

/-- Appending under an absent name is a no-op. -/
theorem appendRange_id_of_not_mem {bs : Networks.Blocks} {n r : String}
    (h : n ∉ bs.map Prod.fst) : Networks.appendRange bs n r = bs := by
  unfold Networks.appendRange
  have hm : ∀ p ∈ bs,
      (if p.1 = n then (p.1, Networks.Block.mk p.2.cidr (p.2.used_ips ++ [r])) else p) = p := by
    intro p hp
    have hne : p.1 ≠ n := fun e => h (by rw [← e]; exact List.mem_map.mpr ⟨p, hp, rfl⟩)
    rw [if_neg hne]
  rw [List.map_congr_left hm]
  exact List.map_id bs

/-- With unique names, appending a range to the named block adds exactly
that range to the concatenation, up to position. -/
theorem usedJoin_appendRange_perm : ∀ {bs : Networks.Blocks} {n r : String},
    (bs.map Prod.fst).Nodup → n ∈ bs.map Prod.fst →
    (Networks.usedJoin (Networks.appendRange bs n r)).Perm (Networks.usedJoin bs ++ [r])
  | [], n, r, _, hmem => by simp at hmem
  | p :: t, n, r, hnd, hmem => by
    rw [List.map_cons] at hnd hmem
    have hcons : Networks.appendRange (p :: t) n r
        = (if p.1 = n then (p.1, Networks.Block.mk p.2.cidr (p.2.used_ips ++ [r])) else p)
          :: Networks.appendRange t n r := rfl
    have hndt : (t.map Prod.fst).Nodup := (List.nodup_cons.mp hnd).2
    by_cases hp : p.1 = n
    · have hnot : n ∉ t.map Prod.fst := by
        rw [← hp]
        exact (List.nodup_cons.mp hnd).1
      have ht : Networks.appendRange t n r = t := appendRange_id_of_not_mem hnot
      rw [hcons, if_pos hp, ht]
      have h1 : Networks.usedJoin ((p.1, Networks.Block.mk p.2.cidr (p.2.used_ips ++ [r])) :: t)
          = (p.2.used_ips ++ [r]) ++ Networks.usedJoin t := rfl
      have h2 : Networks.usedJoin (p :: t) = p.2.used_ips ++ Networks.usedJoin t := rfl
      rw [h1, h2, List.append_assoc, List.append_assoc]
      exact List.Perm.append_left _ (List.perm_append_comm)
    · rcases List.mem_cons.mp hmem with he | hmem'
      · exact absurd he.symm hp
      · have ih := @usedJoin_appendRange_perm t n r hndt hmem'
        rw [hcons, if_neg hp]
        have h1 : Networks.usedJoin (p :: Networks.appendRange t n r)
            = p.2.used_ips ++ Networks.usedJoin (Networks.appendRange t n r) := rfl
        have h2 : Networks.usedJoin (p :: t) = p.2.used_ips ++ Networks.usedJoin t := rfl
        rw [h1, h2, List.append_assoc]
        exact List.Perm.append_left _ ih

/-- When every processed range finds an owner among the block names, the
association loop's concatenation is the old one plus the processed ranges,
as a multiset. -/
theorem usedJoin_assignFold_perm {objs : List (String × AddressSpace.Net)} :
    ∀ {rs : List String} {bs : Networks.Blocks},
    (bs.map Prod.fst).Nodup →
    (∀ r ∈ rs, ∃ n, Networks.assignTarget objs r = some n ∧ n ∈ bs.map Prod.fst) →
    (Networks.usedJoin (rs.foldl (Networks.assignRange objs) bs)).Perm
      (Networks.usedJoin bs ++ rs)
  | [], bs, _, _ => by simp
  | r :: rt, bs, hnd, hown => by
    obtain ⟨n, htgt, hmem⟩ := hown r (List.mem_cons_self _ _)
    have hstep : Networks.assignRange objs bs r = Networks.appendRange bs n r := by
      unfold Networks.assignRange
      rw [htgt]
    have hkeys : (Networks.assignRange objs bs r).map Prod.fst = bs.map Prod.fst := by
      rw [hstep, map_fst_appendRange]
    have ih := @usedJoin_assignFold_perm objs rt (Networks.assignRange objs bs r)
      (by rw [hkeys]; exact hnd)
      (fun r' hr' => by
        obtain ⟨n', h1, h2⟩ := hown r' (List.mem_cons_of_mem _ hr')
        exact ⟨n', h1, by rw [hkeys]; exact h2⟩)
    have hfold : (r :: rt).foldl (Networks.assignRange objs) bs
        = rt.foldl (Networks.assignRange objs) (Networks.assignRange objs bs r) := rfl
    rw [hfold]
    refine ih.trans ?_
    have hperm1 : (Networks.usedJoin (Networks.assignRange objs bs r)).Perm
        (Networks.usedJoin bs ++ [r]) := by
      rw [hstep]
      exact usedJoin_appendRange_perm hnd hmem
    refine (hperm1.append_right rt).trans ?_
    rw [List.append_assoc]
    exact List.Perm.refl _

/-- A found owner really is a declared network containing the address. -/
theorem findOwner_mem {objs : List (String × AddressSpace.Net)} {ip : Nat} {n : String}
    (h : Networks.findOwner objs ip = some n) :
    ∃ net, (n, net) ∈ objs ∧ AddressSpace.netContains net ip = true := by
  unfold Networks.findOwner at h
  cases hf : objs.find? (fun p => AddressSpace.netContains p.2 ip) with
  | none => rw [hf] at h; cases h
  | some q =>
    rw [hf] at h
    injection h with h
    subst h
    exact ⟨q.2, List.mem_of_find?_eq_some hf, by simpa using List.find?_some hf⟩

/-- Every containment-index entry comes from a declared cidr string that
parses. -/
theorem mem_cidrObjs {raw : List (String × String)} {q : String × AddressSpace.Net}
    (h : q ∈ Networks.cidrObjs raw) :
    ∃ cs, (q.1, cs) ∈ raw ∧ AddressSpace.ip_network cs = some q.2 := by
  unfold Networks.cidrObjs at h
  rcases List.mem_filterMap.mp h with ⟨p, hp, hm⟩
  cases hn : AddressSpace.ip_network p.2 with
  | none => rw [hn] at hm; cases hm
  | some net =>
    rw [hn] at hm
    injection hm with hm
    subst hm
    exact ⟨p.2, hp, hn⟩

/-- Under the per-block invariant, every derived range finds an owner when
re-associated against the blocks' own name-to-cidr projection. -/
theorem owner_exists {bs : Networks.Blocks} {r : String}
    (hg : Networks.GoodBlocks bs) (hr : r ∈ Networks.usedJoin bs) :
    ∃ n, Networks.assignTarget (Networks.cidrObjs (Networks.currentCidrs bs)) r = some n ∧
      n ∈ (Networks.currentCidrs bs).map Prod.fst := by
  rcases mem_usedJoin.mp hr with ⟨p, hp, hrp⟩
  obtain ⟨net, ip, hnet, hip, hcont⟩ := hg p hp r hrp
  have hobj : (p.1, net) ∈ Networks.cidrObjs (Networks.currentCidrs bs) := by
    unfold Networks.cidrObjs
    refine List.mem_filterMap.mpr ⟨(p.1, p.2.cidr), List.mem_map.mpr ⟨p, hp, rfl⟩, ?_⟩
    simp [hnet]
  unfold Networks.assignTarget
  rw [hip]
  dsimp only
  unfold Networks.findOwner
  cases hf : (Networks.cidrObjs (Networks.currentCidrs bs)).find?
      (fun q => AddressSpace.netContains q.2 ip) with
  | none =>
    exfalso
    have := List.find?_eq_none.mp hf _ hobj
    simp [hcont] at this
  | some q =>
    refine ⟨q.1, rfl, ?_⟩
    obtain ⟨cs, hcs, _⟩ := mem_cidrObjs (List.mem_of_find?_eq_some hf)
    exact List.mem_map.mpr ⟨(q.1, cs), hcs, rfl⟩

/-- One association step preserves the per-block containment invariant
(the appended range lands in a block whose cidr contains its low end). -/
theorem goodBlocks_assignRange {raw : List (String × String)} {bs : Networks.Blocks} {r : String}
    (hnd : (bs.map Prod.fst).Nodup) (hcc : Networks.currentCidrs bs = raw)
    (hg : Networks.GoodBlocks bs) :
    Networks.GoodBlocks (Networks.assignRange (Networks.cidrObjs raw) bs r) := by
  unfold Networks.assignRange
  cases ht : Networks.assignTarget (Networks.cidrObjs raw) r with
  | none => exact hg
  | some n =>
    unfold Networks.assignTarget at ht
    cases hip : AddressSpace.ip_address (AddressSpace.rangeLow r) with
    | none => rw [hip] at ht; cases ht
    | some ip =>
      rw [hip] at ht
      dsimp only at ht
      obtain ⟨net, hmem, hcont⟩ := findOwner_mem ht
      obtain ⟨cs, hcs, hparse⟩ := mem_cidrObjs hmem
      rw [← hcc] at hcs
      rcases List.mem_map.mp hcs with ⟨pb, hpb, hpbe⟩
      intro p' hp' r' hr'
      rcases List.mem_map.mp hp' with ⟨p, hp, rfl⟩
      by_cases hpn : p.1 = n
      · rw [if_pos hpn] at hr' ⊢
        rcases List.mem_append.mp hr' with h1 | h2
        · exact hg p hp r' h1
        · have hrr : r' = r := by simpa using h2
          subst hrr
          have hpe : p = pb := by
            refine List.inj_on_of_nodup_map hnd hp hpb ?_
            have : pb.1 = n := congrArg Prod.fst hpbe
            rw [hpn, this]
          refine ⟨net, ip, ?_, hip, hcont⟩
          have hcs2 : p.2.cidr = cs := by
            rw [hpe]
            exact congrArg Prod.snd hpbe
          rw [hcs2]
          exact hparse
      · rw [if_neg hpn] at hr' ⊢
        exact hg p hp r' hr'

/-- The whole association loop preserves the per-block containment
invariant. -/
theorem goodBlocks_assignFold {raw : List (String × String)} :
    ∀ {rs : List String} {bs : Networks.Blocks},
    (bs.map Prod.fst).Nodup → Networks.currentCidrs bs = raw → Networks.GoodBlocks bs →
    Networks.GoodBlocks (rs.foldl (Networks.assignRange (Networks.cidrObjs raw)) bs)
  | [], bs, _, _, hg => hg
  | r :: rt, bs, hnd, hcc, hg => by
    have hfold : (r :: rt).foldl (Networks.assignRange (Networks.cidrObjs raw)) bs
        = rt.foldl (Networks.assignRange (Networks.cidrObjs raw))
            (Networks.assignRange (Networks.cidrObjs raw) bs r) := rfl
    rw [hfold]
    exact goodBlocks_assignFold
      (by rw [← map_fst_currentCidrs, currentCidrs_assignRange, map_fst_currentCidrs]; exact hnd)
      (by rw [currentCidrs_assignRange]; exact hcc)
      (goodBlocks_assignRange hnd hcc hg)

/-- The validation loop's trimmed first comma-part is exactly the low
endpoint `load_configs` re-parses. -/
theorem trimHead_comm (s : String) :
    ((Py.pySplit s ',').map Py.strip).headD "" = AddressSpace.rangeLow s := by
  unfold AddressSpace.rangeLow
  cases h : Py.pySplit s ',' with
  | nil => rfl
  | cons a t => rfl

/-- A block accepted by the dialog satisfies the per-block containment
invariant. -/
theorem on_save_ok_good {n v : String} {ls : List String} {nm : String} {b : Networks.Block}
    (h : Networks.on_save n v ls = .ok (nm, b)) :
    ∀ r ∈ b.used_ips, Networks.rangeLowOkIn b.cidr r := by
  unfold Networks.on_save at h
  dsimp only at h
  by_cases h1 : Py.strip n = "" ∨ Py.strip v = ""
  · rw [if_pos h1] at h; cases h
  · rw [if_neg h1] at h
    by_cases h2 : (!(Py.strip v).toList.contains '/') = true
    · rw [if_pos h2] at h; cases h
    · rw [if_neg h2] at h
      cases hnet : AddressSpace.ip_network (Py.strip v) with
      | none => rw [hnet] at h; cases h
      | some net =>
        rw [hnet] at h
        dsimp only at h
        cases hchk : Networks.checkRanges net (Py.strip v)
            ((ls.map Py.strip).filter (fun l => l ≠ "")) with
        | error e => rw [hchk] at h; cases h
        | ok u =>
          rw [hchk] at h
          dsimp only at h
          injection h with h
          injection h with hn hb
          subst hb
          intro r hr
          obtain ⟨s, e, hs, he, hcs, hce⟩ := checkRanges_ok_mem hchk r hr
          exact ⟨net, s, hnet, by rw [← trimHead_comm]; exact hs, hcs⟩

/-- A present key makes `lookup` succeed. -/
theorem lookup_isSome_of_mem_keys {β : Type} {l : List (String × β)} {k : String}
    (h : k ∈ l.map Prod.fst) : (l.lookup k).isSome = true := by
  induction l with
  | nil => cases h
  | cons p t ih =>
    obtain ⟨a, b⟩ := p
    rw [List.map_cons] at h
    rcases List.mem_cons.mp h with rfl | hm
    · simp [List.lookup]
    · cases hak : (k == a) with
      | true => simp [List.lookup, hak]
      | false =>
        simp only [List.lookup, hak]
        exact ih hm

/-- Dict assignment of a validated block preserves unique names and the
containment invariant. -/
theorem wf_dictInsertB {bs : Networks.Blocks} {k : String} {v : Networks.Block}
    (hk : (bs.map Prod.fst).Nodup) (hg : Networks.GoodBlocks bs)
    (hv : ∀ r ∈ v.used_ips, Networks.rangeLowOkIn v.cidr r) :
    ((Networks.dictInsertB bs k v).map Prod.fst).Nodup ∧
    Networks.GoodBlocks (Networks.dictInsertB bs k v) := by
  unfold Networks.dictInsertB
  by_cases he : (bs.lookup k).isSome = true
  · rw [if_pos he]
    constructor
    · rw [List.map_map]
      have hcg : ∀ p ∈ bs, (Prod.fst ∘ fun p => if p.1 = k then (k, v) else p) p = p.1 := by
        intro p _
        by_cases h : p.1 = k <;> simp [h]
      rw [List.map_congr_left hcg]
      exact hk
    · intro p' hp' r hr
      rcases List.mem_map.mp hp' with ⟨p, hp, rfl⟩
      by_cases h : p.1 = k
      · rw [if_pos h] at hr ⊢
        exact hv r hr
      · rw [if_neg h] at hr ⊢
        exact hg p hp r hr
  · rw [if_neg he]
    constructor
    · rw [List.map_append]
      refine List.Nodup.append hk (List.nodup_singleton _) ?_
      intro a ha hb
      rcases List.mem_singleton.mp hb with rfl
      exact he (lookup_isSome_of_mem_keys ha)
    · intro p hp r hr
      rcases List.mem_append.mp hp with h1 | h2
      · exact hg p h1 r hr
      · rcases List.mem_singleton.mp h2 with rfl
        exact hv r hr

/-- Every single mutation preserves unique names and the containment
invariant. -/
theorem wf_applyMutation {st : Networks.LoadedState}
    (hk : (st.cidr_networks.map Prod.fst).Nodup)
    (hg : Networks.GoodBlocks st.cidr_networks) :
    ∀ m : Networks.Mutation,
    ((Networks.applyMutation st m).cidr_networks.map Prod.fst).Nodup ∧
    Networks.GoodBlocks (Networks.applyMutation st m).cidr_networks
  | .upsertBlock n v ls => by
    dsimp only [Networks.applyMutation]
    unfold Networks.applyCidrForm
    cases ho : Networks.on_save n v ls with
    | error e => exact ⟨hk, hg⟩
    | ok nb =>
      obtain ⟨nm, b⟩ := nb
      exact wf_dictInsertB hk hg (on_save_ok_good ho)
  | .deleteBlock n => by
    dsimp only [Networks.applyMutation]
    constructor
    · exact List.Nodup.sublist (List.Sublist.map _ (List.filter_sublist _)) hk
    · intro p hp r hr
      exact hg p (List.mem_of_mem_filter hp) r hr
  | .addProvider pn => ⟨hk, hg⟩
  | .editProvider i pn => ⟨hk, hg⟩
  | .deleteProvider i => ⟨hk, hg⟩

/-- Mutation sequences preserve unique names and the containment
invariant. -/
theorem wf_applyMutations : ∀ (ms : List Networks.Mutation) {st : Networks.LoadedState},
    (st.cidr_networks.map Prod.fst).Nodup → Networks.GoodBlocks st.cidr_networks →
    ((Networks.applyMutations st ms).cidr_networks.map Prod.fst).Nodup ∧
    Networks.GoodBlocks (Networks.applyMutations st ms).cidr_networks
  | [], _, hk, hg => ⟨hk, hg⟩
  | m :: t, st, hk, hg => by
    obtain ⟨hk1, hg1⟩ := wf_applyMutation hk hg m
    exact wf_applyMutations t hk1 hg1

/-- Seeding keeps the raw key list. -/
theorem map_fst_seed (raw : List (String × String)) :
    ((raw.map (fun p => (p.1, Networks.Block.mk p.2 []))).map Prod.fst) = raw.map Prod.fst := by
  rw [List.map_map]
  rfl

/-- Loading a document with unique block names establishes unique names
and the containment invariant. -/
theorem load_WF {d : Networks.UserDoc}
    (h : ((d.cidr_networks.getD []).map Prod.fst).Nodup) :
    (((Networks.load_configs d).cidr_networks).map Prod.fst).Nodup ∧
    Networks.GoodBlocks (Networks.load_configs d).cidr_networks := by
  have hblocks : (Networks.load_configs d).cidr_networks
      = (d.used_ips.getD []).foldl
          (Networks.assignRange (Networks.cidrObjs (d.cidr_networks.getD [])))
          ((d.cidr_networks.getD []).map (fun p => (p.1, ⟨p.2, []⟩))) := rfl
  have hseedk : (((d.cidr_networks.getD []).map
      (fun p => (p.1, Networks.Block.mk p.2 []))).map Prod.fst).Nodup := by
    rw [map_fst_seed]
    exact h
  have hseedc : Networks.currentCidrs ((d.cidr_networks.getD []).map
      (fun p => (p.1, Networks.Block.mk p.2 []))) = d.cidr_networks.getD [] :=
    currentCidrs_seed _
  have hseedg : Networks.GoodBlocks ((d.cidr_networks.getD []).map
      (fun p => (p.1, Networks.Block.mk p.2 []))) := by
    intro p hp r hr
    rcases List.mem_map.mp hp with ⟨q, _, rfl⟩
    cases hr
  rw [hblocks]
  constructor
  · rw [map_fst_assignFold]
    exact hseedk
  · exact goodBlocks_assignFold hseedk hseedc hseedg

/-- Reloading the document a save would write from well-formed blocks
re-baselines the tracker: the change detector reports false. -/
theorem reload_clean_core (cfg : Networks.UserDoc) (bs : Networks.Blocks)
    (pns : List Networks.PNet)
    (hk : (bs.map Prod.fst).Nodup) (hg : Networks.GoodBlocks bs)
    (hrest : (cfg.rest.map Prod.fst).Nodup)
    (hgorest : ((cfg.global_overrides.getD Networks.emptyGO).rest.map Prod.fst).Nodup) :
    Networks.has_unsaved_changes (Networks.load_configs
      { cfg with
        used_ips := some (Networks.usedJoin bs),
        cidr_networks := some (Networks.currentCidrs bs),
        global_overrides := some { (cfg.global_overrides.getD Networks.emptyGO) with
          cidr_networks := some (Networks.currentCidrs bs),
          provider_networks := some pns } }) = false := by
  have hload : Networks.load_configs
      { cfg with
        used_ips := some (Networks.usedJoin bs),
        cidr_networks := some (Networks.currentCidrs bs),
        global_overrides := some { (cfg.global_overrides.getD Networks.emptyGO) with
          cidr_networks := some (Networks.currentCidrs bs),
          provider_networks := some pns } }
      = ⟨some { cfg with
            used_ips := some (Networks.usedJoin bs),
            cidr_networks := some (Networks.currentCidrs bs),
            global_overrides := some { (cfg.global_overrides.getD Networks.emptyGO) with
              cidr_networks := some (Networks.currentCidrs bs),
              provider_networks := some pns } },
          pns,
          (Networks.usedJoin bs).foldl
            (Networks.assignRange (Networks.cidrObjs (Networks.currentCidrs bs)))
            ((Networks.currentCidrs bs).map (fun p => (p.1, ⟨p.2, []⟩)))⟩ := rfl
  rw [hload]
  have hkraw : ((Networks.currentCidrs bs).map Prod.fst).Nodup := by
    rw [map_fst_currentCidrs]
    exact hk
  have hccR : Networks.currentCidrs ((Networks.usedJoin bs).foldl
      (Networks.assignRange (Networks.cidrObjs (Networks.currentCidrs bs)))
      ((Networks.currentCidrs bs).map (fun p => (p.1, ⟨p.2, []⟩))))
      = Networks.currentCidrs bs := by
    rw [currentCidrs_assignFold, currentCidrs_seed]
  have hperm : (Networks.usedJoin ((Networks.usedJoin bs).foldl
      (Networks.assignRange (Networks.cidrObjs (Networks.currentCidrs bs)))
      ((Networks.currentCidrs bs).map (fun p => (p.1, ⟨p.2, []⟩))))).Perm
      (Networks.usedJoin bs) := by
    have hseedk : (((Networks.currentCidrs bs).map
        (fun p => (p.1, Networks.Block.mk p.2 []))).map Prod.fst).Nodup := by
      rw [map_fst_seed]
      exact hkraw
    have howners : ∀ r ∈ Networks.usedJoin bs, ∃ n,
        Networks.assignTarget (Networks.cidrObjs (Networks.currentCidrs bs)) r = some n ∧
        n ∈ ((Networks.currentCidrs bs).map
          (fun p => (p.1, Networks.Block.mk p.2 []))).map Prod.fst := by
      intro r hr
      obtain ⟨n, ht, hmem⟩ := owner_exists hg hr
      refine ⟨n, ht, ?_⟩
      rw [map_fst_seed]
      exact hmem
    have h1 := usedJoin_assignFold_perm hseedk howners
    rw [usedJoin_seed] at h1
    simpa using h1
  refine hasUnsaved_false_of_match _ _ pns
    { (cfg.global_overrides.getD Networks.emptyGO) with
      cidr_networks := some (Networks.currentCidrs bs),
      provider_networks := some pns }
    rfl rfl ?_ ?_ ?_ hrest hgorest ?_
  · rw [hccR]
  · exact hperm
  · rw [hccR]
    exact hkraw
  · exact hkraw

/-- C4: for every loaded document with unique YAML keys and every sequence
of mutations through the validated operations, a successful save
immediately followed by the reload `action_save_configs` performs
re-baselines the snapshot, after which `has_unsaved_changes` is false. -/
theorem c4_save_then_reload_clean (d : Networks.UserDoc) (ms : List Networks.Mutation)
    (d' : Networks.UserDoc)
    (hwf : Networks.DocWF d)
    (hs : Networks.action_save_configs
        (Networks.applyMutations (Networks.load_configs d) ms) d = .saved d') :
    Networks.has_unsaved_changes (Networks.load_configs d') = false := by
  obtain ⟨hd', _, _⟩ := action_save_saved hs
  obtain ⟨hldk, hldg⟩ := load_WF hwf.1
  obtain ⟨hk, hg⟩ := wf_applyMutations ms hldk hldg
  subst hd'
  refine reload_clean_core d _ _ hk hg hwf.2.1 ?_
  cases hgo : d.global_overrides with
  | none => simp [Networks.emptyGO]
  | some g =>
    simp only [hgo, Option.getD_some]
    exact (hwf.2.2 g hgo).1

/-- C4 witness: the round trip on a concrete two-block document with an
added provider network. -/
theorem c4_witness :
    Networks.has_unsaved_changes (Networks.load_configs Examples.roundtripSaved) = false :=
  c4_save_then_reload_clean Examples.roundtripDoc [.addProvider "pn"] Examples.roundtripSaved
    ⟨by unfold Networks.alistNodup; decide, by unfold Networks.alistNodup; decide,
      fun go hgo => by
        injection hgo with h
        subst h
        exact ⟨by unfold Networks.alistNodup; decide, by unfold Networks.alistNodup; decide⟩⟩
    (by rfl)
